import Mathlib

/-
Verification of the xv6-derived buffer cache (src/pj3/bio.c) and the
MLFQ scheduler admission guard declared in src/pj1/xv6-public/proc.h.

Shallow embedding conventions:
* The bcache buffer pool is a `List Buf` in recency order: the head of the
  list is `bcache.head.next` (most recently used), the last element is
  `bcache.head.prev` (least recently used).
* The spinlock/sleeplock acquire-release pairs delimit atomic sections; each
  C operation becomes one Lean function on the whole cache state.  The
  sleeplock of a buffer is a boolean `locked` (held by the single modelled
  caller), matching `holdingsleep`.
* External collaborators (`sync`, `iderw`, `log_write`) are not part of
  bio.c; calls to them are recorded as events, and their state effect is
  either a function parameter (`flush` for `sync`) or modelled from the
  spec (`iderw`).
* C `int` refcounts become `Int`; flag words become `Nat` with the bit
  constants of buf.h.
-/

namespace Xv6Bio

/-- B_VALID flag bit: buffer has been read from disk. -/
def B_VALID : Nat := 2

/-- B_DIRTY flag bit: buffer has been modified and needs writing. -/
def B_DIRTY : Nat := 4

/-- One cache slot: the fields of `struct buf` that bio.c reads or writes
(`dev`, `blockno`, `flags`, `refcnt`, and its sleeplock state). -/
structure Buf where
  dev : Nat
  blockno : Nat
  flags : Nat
  refcnt : Int
  locked : Bool
deriving DecidableEq, Repr

/-- The `bcache` global: the buffer pool in MRU order plus the `isfull`
re-entrancy guard flag. -/
structure Cache where
  bufs : List Buf
  isfull : Bool
deriving DecidableEq, Repr

/-- Calls made to external collaborators, in program order. -/
inductive Ev where
  | sync : Ev
  | iderw : Nat → Nat → Ev
  | logWrite : Nat → Nat → Ev
deriving DecidableEq, Repr

/-- The two fatal failures of bio.c: `panic("bget: no buffers")` and the
`panic` in bwrite/brelse when the sleeplock is not held. -/
inductive Err where
  | bufferExhausted : Err
  | lockViolation : Err
deriving DecidableEq, Repr

/-- `b->flags & B_DIRTY` as a boolean. -/
def isDirty (b : Buf) : Bool := b.flags &&& B_DIRTY != 0

/-- `b->flags & B_VALID` as a boolean. -/
def isValid (b : Buf) : Bool := b.flags &&& B_VALID != 0

/-- A freshly initialised buffer: all of `struct buf` is a zeroed C global,
and `binit` only links the list and initialises the sleeplock. -/
def initBuf : Buf := ⟨0, 0, 0, 0, false⟩

/-- binit: the pool after initialisation — NBUF zeroed buffers on the
recency list, `bcache.isfull = 0`. -/
def binit (NBUF : Nat) : Cache := ⟨List.replicate NBUF initBuf, false⟩

/-- buffer_isfull: counts dirty buffers under the pool lock and returns 1
iff `cnt >= NBUF-3`; the cache is returned unchanged (the loop only reads). -/
def buffer_isfull (NBUF : Nat) (s : Cache) : Nat × Cache :=
  (if NBUF - 3 ≤ s.bufs.countP (fun b => isDirty b) then 1 else 0, s)

/-- Number of dirty buffers in the pool. -/
def dirtyCount (s : Cache) : Nat := s.bufs.countP (fun b => isDirty b)

/-- The loop of logDirtyBuffer: walks the recency list front to back,
emitting one `log_write` call per dirty buffer and counting them. -/
def logDirtyLoop : List Buf → Nat × List Ev
  | [] => (0, [])
  | b :: rest =>
    let r := logDirtyLoop rest
    if isDirty b then (r.1 + 1, Ev.logWrite b.dev b.blockno :: r.2) else r

/-- logDirtyBuffer: hands each dirty buffer to `log_write` and returns the
count; the cache state is untouched (the loop only reads flags). -/
def logDirtyBuffer (s : Cache) : Nat × List Ev × Cache :=
  ((logDirtyLoop s.bufs).1, (logDirtyLoop s.bufs).2, s)

/-- The hit scan of bget: walk from `head.next` (front) and return the index
and value of the first buffer with matching `dev` and `blockno`. -/
def scanHit (dev blockno : Nat) : List Buf → Option (Nat × Buf)
  | [] => none
  | b :: rest =>
    if b.dev == dev && b.blockno == blockno then some (0, b)
    else (scanHit dev blockno rest).map (fun p => (p.1 + 1, p.2))

/-- The recycling condition of bget: `b->refcnt == 0 && (b->flags & B_DIRTY) == 0`. -/
def evictable (b : Buf) : Bool := b.refcnt == 0 && !(isDirty b)

/-- The recycling scan of bget: walk from `head.prev` (back) and return the
index and value of the first buffer with `refcnt == 0` and `B_DIRTY` clear.
Preferring the result on the tail encodes the back-to-front order. -/
def scanVictim : List Buf → Option (Nat × Buf)
  | [] => none
  | b :: rest =>
    match scanVictim rest with
    | some p => some (p.1 + 1, p.2)
    | none => if evictable b then some (0, b) else none

/-- `bcache.isfull = 1` (taken under the pool lock). -/
def guardSet (s : Cache) : Cache := { s with isfull := true }

/-- `bcache.isfull = 0` (taken under the pool lock). -/
def guardClear (s : Cache) : Cache := { s with isfull := false }

/-- Lines 66-77 of bio.c: if the guard is clear and `buffer_isfull()`
returns 1, set the guard, call `sync()` (the external flush collaborator,
passed in as `flush`), and clear the guard.  The emitted event records the
synchronous flush invocation. -/
def pressurePhase (NBUF : Nat) (flush : Cache → Cache) (s : Cache) :
    Cache × List Ev :=
  if s.isfull = false ∧ (buffer_isfull NBUF s).1 = 1 then
    (guardClear (flush (guardSet s)), [Ev.sync])
  else (s, [])

/-- The result of a successful bget/bread: the index of the returned buffer
in the pool, the buffer value the caller's pointer sees, and the new cache. -/
structure BRes where
  idx : Nat
  buf : Buf
  cache : Cache
deriving DecidableEq, Repr

/-- The hit update of bget: `b->refcnt++` followed by `acquiresleep`. -/
def hitBuf (b : Buf) : Buf := { b with refcnt := b.refcnt + 1, locked := true }

/-- The recycling update of bget: `b->dev = dev; b->blockno = blockno;
b->flags = 0; b->refcnt = 1;` followed by `acquiresleep`. -/
def freshBuf (dev blockno : Nat) : Buf := ⟨dev, blockno, 0, 1, true⟩

/-- Lines 79-105 of bio.c: the two scans of bget over the pool, run after
the pressure phase.  The hit scan increments `refcnt` and acquires the
sleeplock; the recycling scan reassigns the identity of the first evictable
buffer from the LRU end; otherwise `panic("bget: no buffers")`. -/
def bgetScan (dev blockno : Nat) (s : Cache) : Except Err BRes :=
  match scanHit dev blockno s.bufs with
  | some ib =>
    Except.ok ⟨ib.1, hitBuf ib.2, { s with bufs := s.bufs.set ib.1 (hitBuf ib.2) }⟩
  | none =>
    match scanVictim s.bufs with
    | some jb =>
      Except.ok ⟨jb.1, freshBuf dev blockno,
        { s with bufs := s.bufs.set jb.1 (freshBuf dev blockno) }⟩
    | none => Except.error Err.bufferExhausted

/-- bget: pressure check and possible flush, then the hit scan, then the
recycling scan. -/
def bget (NBUF : Nat) (flush : Cache → Cache) (dev blockno : Nat)
    (s : Cache) : Except Err BRes × List Ev :=
  (bgetScan dev blockno (pressurePhase NBUF flush s).1,
   (pressurePhase NBUF flush s).2)

/-- Modelled from the spec: `iderw` (the external `deviceReadWrite`
collaborator, ide.c is not part of this repository).  It performs the
synchronous device transfer for the buffer — recorded as an event — and on
a read (`B_DIRTY` clear) it loads the block and sets `B_VALID`; identity
and refcount are untouched. -/
def iderw (b : Buf) : Buf × List Ev :=
  (if isDirty b then b else { b with flags := b.flags ||| B_VALID },
   [Ev.iderw b.dev b.blockno])

/-- bread: `bget`, then if `B_VALID` is clear call `iderw` to load the
block from the device. -/
def bread (NBUF : Nat) (flush : Cache → Cache) (dev blockno : Nat)
    (s : Cache) : Except Err BRes × List Ev :=
  match bget NBUF flush dev blockno s with
  | (Except.error e, evs) => (Except.error e, evs)
  | (Except.ok r, evs) =>
    if isValid r.buf then (Except.ok r, evs)
    else
      (Except.ok ⟨r.idx, (iderw r.buf).1,
         { r.cache with bufs := r.cache.bufs.set r.idx (iderw r.buf).1 }⟩,
       evs ++ (iderw r.buf).2)

/-- bwrite on the buffer at index `i`: `panic` unless the caller holds the
sleeplock, else set `B_DIRTY` and call `iderw` synchronously. -/
def bwrite (i : Nat) (s : Cache) : Except Err Cache × List Ev :=
  match s.bufs[i]? with
  | none => (Except.error Err.lockViolation, [])
  | some b =>
    if b.locked = false then (Except.error Err.lockViolation, [])
    else
      let b1 : Buf := { b with flags := b.flags ||| B_DIRTY }
      let ir := iderw b1
      (Except.ok { s with bufs := s.bufs.set i ir.1 }, ir.2)

/-- brelse on the buffer at index `i`: `panic` unless the caller holds the
sleeplock, else release it, decrement `refcnt`, and if it reached zero move
the buffer to the front of the recency list (`head.next`). -/
def brelse (i : Nat) (s : Cache) : Except Err Cache :=
  match s.bufs[i]? with
  | none => Except.error Err.lockViolation
  | some b =>
    if b.locked = false then Except.error Err.lockViolation
    else
      let b1 : Buf := { b with locked := false, refcnt := b.refcnt - 1 }
      if b1.refcnt = 0 then
        Except.ok { s with bufs := b1 :: s.bufs.eraseIdx i }
      else
        Except.ok { s with bufs := s.bufs.set i b1 }

/-- Clear the `B_DIRTY` bit (bit 2) of a buffer's flag word; bio.c uses only
`B_VALID = 2` and `B_DIRTY = 4`, so masking with 3 keeps `B_VALID` intact. -/
def clearDirty (b : Buf) : Buf := { b with flags := b.flags &&& 3 }

/-- Modelled from the spec: the external flush collaborator `sync()`
(log.c is not part of this repository).  Per the spec it calls
`collectDirty`/`logAppend` and "is expected to eventually clear `Dirty`
flags via the commit path"; it does not change identities, refcounts, or
lock state. -/
def syncModel (s : Cache) : Cache := { s with bufs := s.bufs.map clearDirty }

/-- One client-visible operation of the cache, with the flush collaborator
instantiated to its spec model. -/
inductive Step (NBUF : Nat) : Cache → Cache → Prop
  | fetch (dev blockno : Nat) (r : BRes) (evs : List Ev) (s : Cache) :
      bread NBUF syncModel dev blockno s = (Except.ok r, evs) → Step NBUF s r.cache
  | write (i : Nat) (s' : Cache) (evs : List Ev) (s : Cache) :
      bwrite i s = (Except.ok s', evs) → Step NBUF s s'
  | rel (i : Nat) (s' : Cache) (s : Cache) :
      brelse i s = Except.ok s' → Step NBUF s s'

/-- Cache states reachable from `binit` by fetch / markDirty / release. -/
inductive Reachable (NBUF : Nat) : Cache → Prop
  | init : Reachable NBUF (binit NBUF)
  | step {s s' : Cache} : Reachable NBUF s → Step NBUF s s' → Reachable NBUF s'

/-- Two buffers do not share a `(dev, blockno)` identity. -/
def identDistinct (a b : Buf) : Prop := ¬(a.dev = b.dev ∧ a.blockno = b.blockno)

instance (a b : Buf) : Decidable (identDistinct a b) := by
  unfold identDistinct; infer_instance

/-- At most one buffer in the pool per `(dev, blockno)` identity. -/
def identUnique (l : List Buf) : Prop := l.Pairwise identDistinct

instance (l : List Buf) : Decidable (identUnique l) := by
  unfold identUnique; infer_instance

/-- Refcount sanity: every refcount is non-negative, and a buffer whose
sleeplock is held has at least one holder counted. -/
def RefOk (s : Cache) : Prop :=
  ∀ b ∈ s.bufs, 0 ≤ b.refcnt ∧ (b.locked = true → 1 ≤ b.refcnt)

/-- Modelled from the spec: the scheduler admission state around
`level_queue[3]` and the per-process `already_enqueued` flag of proc.h
(proc.c is not part of this repository).  The three level queues hold pids;
`enqueued` is the set of pids whose `already_enqueued` flag is 1. -/
structure SchedState where
  queue0 : List Nat
  queue1 : List Nat
  queue2 : List Nat
  enqueued : List Nat
deriving DecidableEq, Repr

/-- The level queue selected by `level`. -/
def level_queue (s : SchedState) (lvl : Nat) : List Nat :=
  if lvl = 0 then s.queue0 else if lvl = 1 then s.queue1 else s.queue2

/-- Replace the level queue selected by `level`. -/
def setLevelQueue (s : SchedState) (lvl : Nat) (q : List Nat) : SchedState :=
  if lvl = 0 then { s with queue0 := q }
  else if lvl = 1 then { s with queue1 := q }
  else { s with queue2 := q }

/-- Modelled from the spec: scheduler `enqueue` — a no-op if the process's
`already_enqueued` guard is set, else append the pid to its level queue and
set the guard. -/
def enqueue (lvl pid : Nat) (s : SchedState) : SchedState :=
  if pid ∈ s.enqueued then s
  else { setLevelQueue s lvl (level_queue s lvl ++ [pid]) with
         enqueued := pid :: s.enqueued }

/-- Modelled from the spec: dequeue for dispatch — pop the head of the
level queue and clear that process's `already_enqueued` guard; the guard is
cleared only here. -/
def dequeue (lvl : Nat) (s : SchedState) : Option Nat × SchedState :=
  match level_queue s lvl with
  | [] => (none, s)
  | p :: rest =>
    (some p, { setLevelQueue s lvl rest with enqueued := s.enqueued.erase p })

/-- Concrete pool used for counterexamples and witnesses: one dirty buffer,
one zeroed (hence invalid) buffer with the initial `(0,0)` identity, and two
valid held buffers. -/
def cacheA : Cache :=
  ⟨[⟨1, 1, 4, 0, false⟩, ⟨0, 0, 0, 0, false⟩,
    ⟨2, 2, 2, 1, false⟩, ⟨3, 3, 2, 1, false⟩], false⟩

/-- Concrete exhausted pool: one dirty buffer and one held buffer. -/
def cacheExh : Cache := ⟨[⟨1, 1, 4, 0, false⟩, ⟨2, 2, 2, 1, false⟩], false⟩

/-- Concrete pool with one dirty buffer and one clean buffer whose
sleeplock is held with a single reference. -/
def cacheHeld : Cache := ⟨[⟨1, 1, 4, 0, false⟩, ⟨2, 2, 2, 1, true⟩], false⟩

/-- `cacheHeld` after bwrite on its held buffer. -/
def cacheHeldW : Cache := ⟨[⟨1, 1, 4, 0, false⟩, ⟨2, 2, 6, 1, true⟩], false⟩

/-- `cacheHeld` after brelse on its held buffer: the refcount reaches 0 and
the buffer moves to the MRU end. -/
def cacheRel : Cache := ⟨[⟨2, 2, 2, 0, false⟩, ⟨1, 1, 4, 0, false⟩], false⟩

/-- `cacheA` after `bread 4 f 9 9`: the zeroed buffer was recycled for
block (9,9), loaded, and locked. -/
def cacheA9 : Cache :=
  ⟨[⟨1, 1, 4, 0, false⟩, ⟨9, 9, 2, 1, true⟩,
    ⟨2, 2, 2, 1, false⟩, ⟨3, 3, 2, 1, false⟩], false⟩

/-- Empty scheduler admission state. -/
def sched0 : SchedState := ⟨[], [], [], []⟩

end Xv6Bio

namespace Xv6Bio

theorem mem_of_lookup {α : Type} {l : List α} {i : Nat} {a : α}
    (h : l[i]? = some a) : a ∈ l := by
  obtain ⟨hlt, rfl⟩ := List.getElem?_eq_some_iff.mp h
  exact List.getElem_mem hlt

theorem lookup_set_self {α : Type} {l : List α} {i : Nat} {a : α} (b : α)
    (h : l[i]? = some a) : (l.set i b)[i]? = some b := by
  obtain ⟨hlt, -⟩ := List.getElem?_eq_some_iff.mp h
  rw [List.getElem?_set_self]
  · simp [hlt]

theorem scanHit_some {dev blockno : Nat} : ∀ {l : List Buf} {i : Nat} {b : Buf},
    scanHit dev blockno l = some (i, b) →
    l[i]? = some b ∧ b.dev = dev ∧ b.blockno = blockno := by
  intro l
  induction l with
  | nil => intro i b h; simp [scanHit] at h
  | cons a rest ih =>
    intro i b h
    rw [scanHit] at h
    by_cases hc : (a.dev == dev && a.blockno == blockno) = true
    · rw [if_pos hc] at h
      simp only [Option.some.injEq, Prod.mk.injEq] at h
      obtain ⟨hi, hb⟩ := h
      subst hi; subst hb
      simp only [Bool.and_eq_true, beq_iff_eq] at hc
      exact ⟨by simp, hc.1, hc.2⟩
    · rw [if_neg hc] at h
      cases hr : scanHit dev blockno rest with
      | none => rw [hr] at h; simp at h
      | some p =>
        obtain ⟨pi, pb⟩ := p
        rw [hr] at h
        simp only [Option.map_some', Option.some.injEq, Prod.mk.injEq] at h
        obtain ⟨hi, hb⟩ := h
        subst hi; subst hb
        obtain ⟨h1, h2, h3⟩ := ih hr
        exact ⟨by simpa using h1, h2, h3⟩

theorem scanHit_none {dev blockno : Nat} : ∀ {l : List Buf},
    scanHit dev blockno l = none ↔
      ∀ b ∈ l, ¬(b.dev = dev ∧ b.blockno = blockno) := by
  intro l
  induction l with
  | nil => simp [scanHit]
  | cons a rest ih =>
    rw [scanHit]
    by_cases hc : (a.dev == dev && a.blockno == blockno) = true
    · rw [if_pos hc]
      simp only [Bool.and_eq_true, beq_iff_eq] at hc
      constructor
      · intro h; simp at h
      · intro h; exact absurd ⟨hc.1, hc.2⟩ (h a (List.mem_cons_self a rest))
    · rw [if_neg hc]
      simp only [Bool.and_eq_true, beq_iff_eq, not_and] at hc
      cases hr : scanHit dev blockno rest with
      | some p =>
        simp only [hr, Option.map_some']
        constructor
        · intro h; simp at h
        · intro h
          have hnone : scanHit dev blockno rest = none :=
            ih.mpr (fun b hb => h b (List.mem_cons_of_mem _ hb))
          rw [hr] at hnone; simp at hnone
      | none =>
        simp only [Option.map_none']
        constructor
        · intro _ b hb
          rcases List.mem_cons.mp hb with rfl | hb'
          · rintro ⟨h1, h2⟩; exact absurd h2 (hc h1)
          · exact (ih.mp hr) b hb'
        · intro _; trivial

theorem scanVictim_none : ∀ {l : List Buf},
    scanVictim l = none ↔ ∀ b ∈ l, evictable b = false := by
  intro l
  induction l with
  | nil => simp [scanVictim]
  | cons a rest ih =>
    rw [scanVictim]
    cases hr : scanVictim rest with
    | some p =>
      show some (p.1 + 1, p.2) = none ↔ ∀ b ∈ a :: rest, evictable b = false
      constructor
      · intro h; simp at h
      · intro h
        have hnone : scanVictim rest = none :=
          ih.mpr (fun b hb => h b (List.mem_cons_of_mem _ hb))
        rw [hr] at hnone; simp at hnone
    | none =>
      show (if evictable a then some (0, a) else none) = none ↔
        ∀ b ∈ a :: rest, evictable b = false
      by_cases he : evictable a = true
      · rw [if_pos he]
        constructor
        · intro h; simp at h
        · intro h
          have := h a (List.mem_cons_self a rest)
          rw [he] at this; simp at this
      · rw [if_neg he]
        constructor
        · intro _ b hb
          rcases List.mem_cons.mp hb with rfl | hb'
          · exact Bool.eq_false_iff.mpr he
          · exact (ih.mp hr) b hb'
        · intro _; rfl

theorem scanVictim_some : ∀ {l : List Buf} {j : Nat} {b : Buf},
    scanVictim l = some (j, b) →
    l[j]? = some b ∧ evictable b = true ∧
      ∀ k, j < k → ∀ c, l[k]? = some c → evictable c = false := by
  intro l
  induction l with
  | nil => intro j b h; simp [scanVictim] at h
  | cons a rest ih =>
    intro j b h
    rw [scanVictim] at h
    cases hr : scanVictim rest with
    | some p =>
      obtain ⟨pj, pb⟩ := p
      rw [hr] at h
      simp only [Option.some.injEq, Prod.mk.injEq] at h
      obtain ⟨hj, hb⟩ := h
      subst hj; subst hb
      obtain ⟨h1, h2, h3⟩ := ih hr
      refine ⟨by simpa using h1, h2, ?_⟩
      intro k hk c hkc
      cases k with
      | zero => omega
      | succ k' =>
        simp only [List.getElem?_cons_succ] at hkc
        exact h3 k' (by omega) c hkc
    | none =>
      rw [hr] at h
      by_cases he : evictable a = true
      · rw [if_pos he] at h
        simp only [Option.some.injEq, Prod.mk.injEq] at h
        obtain ⟨hj, hb⟩ := h
        subst hj; subst hb
        refine ⟨by simp, he, ?_⟩
        intro k hk c hkc
        cases k with
        | zero => omega
        | succ k' =>
          simp only [List.getElem?_cons_succ] at hkc
          exact (scanVictim_none.mp hr) c (mem_of_lookup hkc)
      · rw [if_neg he] at h; simp at h

end Xv6Bio

namespace Xv6Bio

theorem logDirtyLoop_eq : ∀ l : List Buf,
    logDirtyLoop l =
      (l.countP (fun b => isDirty b),
       (l.filter (fun b => isDirty b)).map (fun b => Ev.logWrite b.dev b.blockno)) := by
  intro l
  induction l with
  | nil => rfl
  | cons a rest ih =>
    rw [logDirtyLoop, ih]
    by_cases h : isDirty a
    · simp [h, List.countP_cons, List.filter_cons]
    · simp [h, List.countP_cons, List.filter_cons]

theorem lor_and_self (f m : Nat) : (f ||| m) &&& m = m := by
  apply Nat.eq_of_testBit_eq
  intro i
  simp only [Nat.testBit_and, Nat.testBit_or]
  cases hm : m.testBit i <;> simp

theorem isDirty_or_dirty (b : Buf) :
    isDirty { b with flags := b.flags ||| B_DIRTY } = true := by
  simp [isDirty, lor_and_self]
  intro h
  simp [B_DIRTY] at h

theorem iderw_refcnt (b : Buf) : (iderw b).1.refcnt = b.refcnt := by
  unfold iderw
  by_cases h : isDirty b <;> simp [h]

theorem iderw_locked (b : Buf) : (iderw b).1.locked = b.locked := by
  unfold iderw
  by_cases h : isDirty b <;> simp [h]

theorem iderw_dev (b : Buf) : (iderw b).1.dev = b.dev := by
  unfold iderw
  by_cases h : isDirty b <;> simp [h]

theorem iderw_blockno (b : Buf) : (iderw b).1.blockno = b.blockno := by
  unfold iderw
  by_cases h : isDirty b <;> simp [h]

theorem iderw_dirty (b : Buf) (h : isDirty b = true) : (iderw b).1 = b := by
  unfold iderw
  simp [h]

theorem iderw_evs (b : Buf) : (iderw b).2 = [Ev.iderw b.dev b.blockno] := rfl

theorem pressurePhase_pos (NBUF : Nat) (flush : Cache → Cache) (s : Cache)
    (h1 : s.isfull = false) (h2 : (buffer_isfull NBUF s).1 = 1) :
    pressurePhase NBUF flush s = (guardClear (flush (guardSet s)), [Ev.sync]) := by
  unfold pressurePhase
  rw [if_pos ⟨h1, h2⟩]

theorem pressurePhase_neg (NBUF : Nat) (flush : Cache → Cache) (s : Cache)
    (h : ¬(s.isfull = false ∧ (buffer_isfull NBUF s).1 = 1)) :
    pressurePhase NBUF flush s = (s, []) := by
  unfold pressurePhase
  rw [if_neg h]

theorem pressurePhase_evs (NBUF : Nat) (flush : Cache → Cache) (s : Cache) :
    (pressurePhase NBUF flush s).2 = [] ∨
    (pressurePhase NBUF flush s).2 = [Ev.sync] := by
  unfold pressurePhase
  by_cases h : s.isfull = false ∧ (buffer_isfull NBUF s).1 = 1
  · rw [if_pos h]; right; rfl
  · rw [if_neg h]; left; rfl

theorem pressurePhase_sync_mem (NBUF : Nat) (flush : Cache → Cache) (s : Cache) :
    Ev.sync ∈ (pressurePhase NBUF flush s).2 ↔
      s.isfull = false ∧ (buffer_isfull NBUF s).1 = 1 := by
  unfold pressurePhase
  by_cases h : s.isfull = false ∧ (buffer_isfull NBUF s).1 = 1
  · rw [if_pos h]; simpa using h
  · rw [if_neg h]; simpa using h

theorem pressurePhase_syncModel_bufs (NBUF : Nat) (s : Cache) :
    (pressurePhase NBUF syncModel s).1.bufs = s.bufs ∨
    (pressurePhase NBUF syncModel s).1.bufs = s.bufs.map clearDirty := by
  unfold pressurePhase
  by_cases h : s.isfull = false ∧ (buffer_isfull NBUF s).1 = 1
  · rw [if_pos h]; right; rfl
  · rw [if_neg h]; left; rfl

end Xv6Bio

namespace Xv6Bio

theorem identDistinct_symm {a b : Buf} (h : identDistinct a b) :
    identDistinct b a := by
  unfold identDistinct at h ⊢
  intro hx
  exact h ⟨hx.1.symm, hx.2.symm⟩

theorem pairwise_erase_rel {l : List Buf} : ∀ {i : Nat} {a : Buf},
    l.Pairwise identDistinct → l[i]? = some a →
    ∀ x ∈ l.eraseIdx i, identDistinct a x := by
  induction l with
  | nil => intro i a _ h; simp at h
  | cons c rest ih =>
    intro i a hp hg x hx
    obtain ⟨hhead, htail⟩ := List.pairwise_cons.mp hp
    cases i with
    | zero =>
      simp only [List.getElem?_cons_zero, Option.some.injEq] at hg
      subst hg
      simp only [List.eraseIdx_cons_zero] at hx
      exact hhead x hx
    | succ k =>
      simp only [List.getElem?_cons_succ] at hg
      simp only [List.eraseIdx_cons_succ] at hx
      rcases List.mem_cons.mp hx with rfl | hx'
      · exact identDistinct_symm (hhead a (mem_of_lookup hg))
      · exact ih htail hg x hx'

theorem pairwise_set_congr {l : List Buf} : ∀ {i : Nat} {a : Buf} (b : Buf),
    l.Pairwise identDistinct → l[i]? = some a →
    a.dev = b.dev → a.blockno = b.blockno →
    (l.set i b).Pairwise identDistinct := by
  induction l with
  | nil => intro i a b _ h; simp at h
  | cons c rest ih =>
    intro i a b hp hg h1 h2
    obtain ⟨hhead, htail⟩ := List.pairwise_cons.mp hp
    cases i with
    | zero =>
      simp only [List.getElem?_cons_zero, Option.some.injEq] at hg
      subst hg
      rw [List.set_cons_zero]
      refine List.pairwise_cons.mpr ⟨?_, htail⟩
      intro x hx
      have hd := hhead x hx
      unfold identDistinct at hd ⊢
      rw [← h1, ← h2]
      exact hd
    | succ k =>
      simp only [List.getElem?_cons_succ] at hg
      rw [List.set_cons_succ]
      refine List.pairwise_cons.mpr ⟨?_, ih b htail hg h1 h2⟩
      intro x hx
      rcases List.mem_or_eq_of_mem_set hx with hx' | rfl
      · exact hhead x hx'
      · have hd := hhead a (mem_of_lookup hg)
        unfold identDistinct at hd ⊢
        rw [← h1, ← h2]
        exact hd

theorem pairwise_set_new {l : List Buf} : ∀ {i : Nat} (b : Buf),
    l.Pairwise identDistinct →
    (∀ x ∈ l, ¬(x.dev = b.dev ∧ x.blockno = b.blockno)) →
    (l.set i b).Pairwise identDistinct := by
  induction l with
  | nil => intro i b _ _; simp
  | cons c rest ih =>
    intro i b hp hn
    obtain ⟨hhead, htail⟩ := List.pairwise_cons.mp hp
    cases i with
    | zero =>
      rw [List.set_cons_zero]
      refine List.pairwise_cons.mpr ⟨?_, htail⟩
      intro x hx
      exact identDistinct_symm (hn x (List.mem_cons_of_mem _ hx))
    | succ k =>
      rw [List.set_cons_succ]
      refine List.pairwise_cons.mpr
        ⟨?_, ih b htail (fun x hx => hn x (List.mem_cons_of_mem _ hx))⟩
      intro x hx
      rcases List.mem_or_eq_of_mem_set hx with hx' | rfl
      · exact hhead x hx'
      · exact hn c (List.mem_cons_self c rest)

theorem pairwise_cons_erase {l : List Buf} {i : Nat} {a : Buf} (b : Buf)
    (hp : l.Pairwise identDistinct) (hg : l[i]? = some a)
    (h1 : a.dev = b.dev) (h2 : a.blockno = b.blockno) :
    (b :: l.eraseIdx i).Pairwise identDistinct := by
  refine List.pairwise_cons.mpr ⟨?_, hp.sublist (List.eraseIdx_sublist l i)⟩
  intro x hx
  have hd := pairwise_erase_rel hp hg x hx
  unfold identDistinct at hd ⊢
  rw [← h1, ← h2]
  exact hd

theorem identUnique_map_clearDirty {l : List Buf} (h : identUnique l) :
    identUnique (l.map clearDirty) := by
  unfold identUnique at h ⊢
  rw [List.pairwise_map]
  exact h.imp (fun hd => hd)

end Xv6Bio

namespace Xv6Bio

theorem mem_of_eraseIdx {α : Type} {l : List α} {i : Nat} {x : α}
    (h : x ∈ l.eraseIdx i) : x ∈ l :=
  List.Sublist.mem h (List.eraseIdx_sublist l i)

theorem bgetScan_inv {dev blockno : Nat} {s : Cache} {r : BRes}
    (h : bgetScan dev blockno s = Except.ok r) :
    (∃ i b, scanHit dev blockno s.bufs = some (i, b) ∧
      r = ⟨i, hitBuf b, { s with bufs := s.bufs.set i (hitBuf b) }⟩) ∨
    (∃ j b, scanHit dev blockno s.bufs = none ∧ scanVictim s.bufs = some (j, b) ∧
      r = ⟨j, freshBuf dev blockno,
            { s with bufs := s.bufs.set j (freshBuf dev blockno) }⟩) := by
  unfold bgetScan at h
  cases hh : scanHit dev blockno s.bufs with
  | some ib =>
    obtain ⟨i, b⟩ := ib
    rw [hh] at h
    simp only [Except.ok.injEq] at h
    exact Or.inl ⟨i, b, rfl, h.symm⟩
  | none =>
    rw [hh] at h
    cases hv : scanVictim s.bufs with
    | some jb =>
      obtain ⟨j, b⟩ := jb
      rw [hv] at h
      simp only [Except.ok.injEq] at h
      exact Or.inr ⟨j, b, rfl, rfl, h.symm⟩
    | none => rw [hv] at h; simp at h

theorem bgetScan_lookup {dev blockno : Nat} {s : Cache} {r : BRes}
    (h : bgetScan dev blockno s = Except.ok r) :
    r.cache.bufs[r.idx]? = some r.buf := by
  rcases bgetScan_inv h with ⟨i, b, hh, rfl⟩ | ⟨j, b, hh, hv, rfl⟩
  · exact lookup_set_self _ (scanHit_some hh).1
  · exact lookup_set_self _ (scanVictim_some hv).1

theorem bgetScan_isfull {dev blockno : Nat} {s : Cache} {r : BRes}
    (h : bgetScan dev blockno s = Except.ok r) :
    r.cache.isfull = s.isfull := by
  rcases bgetScan_inv h with ⟨i, b, hh, rfl⟩ | ⟨j, b, hh, hv, rfl⟩ <;> rfl

theorem bread_inv {NBUF : Nat} {f : Cache → Cache} {dev blockno : Nat}
    {s : Cache} {r : BRes} {evs : List Ev}
    (h : bread NBUF f dev blockno s = (Except.ok r, evs)) :
    ∃ r0, bgetScan dev blockno (pressurePhase NBUF f s).1 = Except.ok r0 ∧
      ((isValid r0.buf = true ∧ r = r0 ∧ evs = (pressurePhase NBUF f s).2) ∨
       (isValid r0.buf = false ∧
        r = ⟨r0.idx, (iderw r0.buf).1,
             { r0.cache with
               bufs := r0.cache.bufs.set r0.idx (iderw r0.buf).1 }⟩ ∧
        evs = (pressurePhase NBUF f s).2 ++
                [Ev.iderw r0.buf.dev r0.buf.blockno])) := by
  unfold bread bget at h
  cases hb : bgetScan dev blockno (pressurePhase NBUF f s).1 with
  | error e => rw [hb] at h; simp at h
  | ok r0 =>
    rw [hb] at h
    refine ⟨r0, rfl, ?_⟩
    by_cases hv : isValid r0.buf = true
    · simp only [hv, if_true, Prod.mk.injEq, Except.ok.injEq] at h
      exact Or.inl ⟨hv, h.1.symm, h.2.symm⟩
    · rw [Bool.not_eq_true] at hv
      simp only [hv, Bool.false_eq_true, if_false, Prod.mk.injEq,
        Except.ok.injEq] at h
      exact Or.inr ⟨hv, h.1.symm, h.2.symm⟩

end Xv6Bio

namespace Xv6Bio

theorem refOk_pressure (NBUF : Nat) {s : Cache} (h : RefOk s) :
    RefOk (pressurePhase NBUF syncModel s).1 := by
  rcases pressurePhase_syncModel_bufs NBUF s with hb | hb
  · intro x hx; rw [hb] at hx; exact h x hx
  · intro x hx
    rw [hb] at hx
    obtain ⟨y, hy, rfl⟩ := List.mem_map.mp hx
    exact h y hy

theorem refOk_bgetScan {dev blockno : Nat} {s : Cache} {r : BRes}
    (h : bgetScan dev blockno s = Except.ok r) (hs : RefOk s) :
    RefOk r.cache := by
  rcases bgetScan_inv h with ⟨i, b, hh, rfl⟩ | ⟨j, b, hh, hv, rfl⟩
  · intro x hx
    rcases List.mem_or_eq_of_mem_set hx with hx' | rfl
    · exact hs x hx'
    · have hb := hs b (mem_of_lookup (scanHit_some hh).1)
      exact ⟨by unfold hitBuf; simp; omega, fun _ => by unfold hitBuf; simp; omega⟩
  · intro x hx
    rcases List.mem_or_eq_of_mem_set hx with hx' | rfl
    · exact hs x hx'
    · exact ⟨by norm_num [freshBuf], fun _ => by norm_num [freshBuf]⟩

theorem refOk_step {NBUF : Nat} {s s' : Cache} (hs : RefOk s)
    (hstep : Step NBUF s s') : RefOk s' := by
  cases hstep with
  | fetch dev blockno r evs s h =>
    obtain ⟨r0, hb, hcases⟩ := bread_inv h
    have h1 : RefOk (pressurePhase NBUF syncModel s).1 := refOk_pressure NBUF hs
    have h2 : RefOk r0.cache := refOk_bgetScan hb h1
    rcases hcases with ⟨hv, rfl, hevs⟩ | ⟨hv, rfl, hevs⟩
    · exact h2
    · intro x hx
      rcases List.mem_or_eq_of_mem_set hx with hx' | rfl
      · exact h2 x hx'
      · have hmem : r0.buf ∈ r0.cache.bufs := mem_of_lookup (bgetScan_lookup hb)
        have := h2 r0.buf hmem
        rw [iderw_refcnt, iderw_locked]
        exact this
  | write i s'2 evs s h =>
    unfold bwrite at h
    split at h
    next => simp at h
    next b hg =>
      split at h
      next => simp at h
      next hl =>
        simp only [Prod.mk.injEq, Except.ok.injEq] at h
        obtain ⟨hcache, -⟩ := h
        subst hcache
        intro x hx
        rcases List.mem_or_eq_of_mem_set hx with hx' | rfl
        · exact hs x hx'
        · have := hs b (mem_of_lookup hg)
          rw [iderw_refcnt, iderw_locked]
          exact this
  | rel i s'2 s h =>
    unfold brelse at h
    split at h
    next => simp at h
    next b hg =>
      split at h
      next => simp at h
      next hl =>
        rw [Bool.not_eq_false] at hl
        have hb := hs b (mem_of_lookup hg)
        have hge : 1 ≤ b.refcnt := hb.2 hl
        simp only [] at h
        split at h
        next hz =>
          simp only [Except.ok.injEq] at h
          subst h
          intro x hx
          rcases List.mem_cons.mp hx with rfl | hx'
          · refine ⟨by simp; omega, ?_⟩
            intro hco
            simp at hco
          · exact hs x (mem_of_eraseIdx hx')
        next hz =>
          simp only [Except.ok.injEq] at h
          subst h
          intro x hx
          rcases List.mem_or_eq_of_mem_set hx with hx' | rfl
          · exact hs x hx'
          · refine ⟨by simp; omega, ?_⟩
            intro hco
            simp at hco

theorem identUnique_step {NBUF : Nat} {s s' : Cache} (hu : identUnique s.bufs)
    (hstep : Step NBUF s s') : identUnique s'.bufs := by
  cases hstep with
  | fetch dev blockno r evs s h =>
    obtain ⟨r0, hb, hcases⟩ := bread_inv h
    have h1 : identUnique (pressurePhase NBUF syncModel s).1.bufs := by
      rcases pressurePhase_syncModel_bufs NBUF s with hp | hp
      · rw [hp]; exact hu
      · rw [hp]; exact identUnique_map_clearDirty hu
    have h2 : identUnique r0.cache.bufs := by
      rcases bgetScan_inv hb with ⟨i, b, hh, rfl⟩ | ⟨j, b, hh, hv, rfl⟩
      · exact pairwise_set_congr (hitBuf b) h1 (scanHit_some hh).1 rfl rfl
      · refine pairwise_set_new _ h1 ?_
        intro x hx
        exact scanHit_none.mp hh x hx
    rcases hcases with ⟨hv, rfl, hevs⟩ | ⟨hv, rfl, hevs⟩
    · exact h2
    · exact pairwise_set_congr _ h2 (bgetScan_lookup hb)
        (iderw_dev r0.buf).symm (iderw_blockno r0.buf).symm
  | write i s'2 evs s h =>
    unfold bwrite at h
    split at h
    next => simp at h
    next b hg =>
      split at h
      next => simp at h
      next hl =>
        simp only [Prod.mk.injEq, Except.ok.injEq] at h
        obtain ⟨hcache, -⟩ := h
        subst hcache
        exact pairwise_set_congr _ hu hg
          (by rw [iderw_dev]) (by rw [iderw_blockno])
  | rel i s'2 s h =>
    unfold brelse at h
    split at h
    next => simp at h
    next b hg =>
      split at h
      next => simp at h
      next hl =>
        simp only [] at h
        split at h
        next hz =>
          simp only [Except.ok.injEq] at h
          subst h
          exact pairwise_cons_erase _ hu hg rfl rfl
        next hz =>
          simp only [Except.ok.injEq] at h
          subst h
          exact pairwise_set_congr _ hu hg rfl rfl

end Xv6Bio

namespace Xv6Bio

theorem evictable_eq_true (b : Buf) :
    evictable b = true ↔ b.refcnt = 0 ∧ isDirty b = false := by
  unfold evictable
  simp [Bool.and_eq_true, beq_iff_eq, Bool.not_eq_true']

theorem evictable_eq_false (b : Buf) :
    evictable b = false ↔ ¬b.refcnt = 0 ∨ isDirty b = true := by
  rw [← Bool.not_eq_true, evictable_eq_true]
  by_cases h1 : b.refcnt = 0 <;> by_cases h2 : isDirty b = true <;>
    simp [h1, h2]

theorem buffer_isfull_one_iff (NBUF : Nat) (s : Cache) :
    (buffer_isfull NBUF s).1 = 1 ↔ NBUF - 3 ≤ dirtyCount s := by
  unfold buffer_isfull dirtyCount
  by_cases h : NBUF - 3 ≤ s.bufs.countP (fun b => isDirty b)
  · simp [h]
  · simp [h]

theorem buffer_isfull_zero_iff (NBUF : Nat) (s : Cache) :
    (buffer_isfull NBUF s).1 = 0 ↔ dirtyCount s < NBUF - 3 := by
  unfold buffer_isfull dirtyCount
  by_cases h : NBUF - 3 ≤ s.bufs.countP (fun b => isDirty b)
  · simp [h]
  · simp [h]
    omega

theorem bread_evs (NBUF : Nat) (f : Cache → Cache) (dev blockno : Nat)
    (s : Cache) :
    (bread NBUF f dev blockno s).2 = (pressurePhase NBUF f s).2 ∨
    ∃ d k, (bread NBUF f dev blockno s).2 =
      (pressurePhase NBUF f s).2 ++ [Ev.iderw d k] := by
  unfold bread bget
  cases hb : bgetScan dev blockno (pressurePhase NBUF f s).1 with
  | error e => left; rfl
  | ok r =>
    by_cases hv : isValid r.buf = true
    · left; simp [hv]
    · right
      refine ⟨r.buf.dev, r.buf.blockno, ?_⟩
      simp [hv, iderw_evs]

theorem level_queue_setLevelQueue (s : SchedState) (lvl : Nat) (q : List Nat) :
    level_queue (setLevelQueue s lvl q) lvl = q := by
  unfold level_queue setLevelQueue
  by_cases h0 : lvl = 0
  · simp [h0]
  · by_cases h1 : lvl = 1 <;> simp [h0, h1]

theorem level_queue_enq_update (x : SchedState) (e : List Nat) (lvl : Nat) :
    level_queue { x with enqueued := e } lvl = level_queue x lvl := by
  unfold level_queue
  rfl

theorem enqueue_of_mem (lvl pid : Nat) (t : SchedState)
    (ht : pid ∈ t.enqueued) : enqueue lvl pid t = t := by
  unfold enqueue
  rw [if_pos ht]

theorem enqueue_of_not_mem (lvl pid : Nat) (t : SchedState)
    (ht : pid ∉ t.enqueued) :
    enqueue lvl pid t =
      { setLevelQueue t lvl (level_queue t lvl ++ [pid]) with
        enqueued := pid :: t.enqueued } := by
  unfold enqueue
  rw [if_neg ht]

end Xv6Bio

namespace Xv6Bio

/-- Claim C5: logDirtyBuffer hands each buffer whose Dirty flag is set to the
external log-append collaborator exactly once (one `log_write` event per
dirty buffer, in pool order), returns the number of such buffers, and leaves
the cache state — in particular every Dirty flag — unchanged. -/
theorem C5_collectDirty (s : Cache) :
    logDirtyBuffer s =
      (dirtyCount s,
       (s.bufs.filter (fun b => isDirty b)).map
         (fun b => Ev.logWrite b.dev b.blockno),
       s) := by
  unfold logDirtyBuffer dirtyCount
  rw [logDirtyLoop_eq]

/-- Claim C10: the observer operations are effect-free on cache state:
buffer_isfull and logDirtyBuffer both return the pool (every buffer
field-for-field) exactly as they received it. -/
theorem C10_observers_frame (NBUF : Nat) (s : Cache) :
    (buffer_isfull NBUF s).2 = s ∧ (logDirtyBuffer s).2.2 = s :=
  ⟨rfl, rfl⟩

/-- Claim C7: across all sequences of fetch (bread), markDirty (bwrite) and
release (brelse) calls from the initial pool, no buffer's refcount ever
becomes negative. -/
theorem C7_refcnt_nonneg (NBUF : Nat) (s : Cache) (h : Reachable NBUF s) :
    ∀ b ∈ s.bufs, 0 ≤ b.refcnt := by
  have hr : RefOk s := by
    induction h with
    | init =>
      intro b hb
      have hbe : b = initBuf :=
        List.eq_of_mem_replicate (by simpa [binit] using hb)
      subst hbe
      exact ⟨le_refl 0, by intro hco; simp [initBuf] at hco⟩
    | step h1 h2 ih => exact refOk_step ih h2
  exact fun b hb => (hr b hb).1

/-- Witness for C7 at the initial pool of two buffers. -/
theorem C7_witness : (0 : Int) ≤ initBuf.refcnt :=
  C7_refcnt_nonneg 2 (binit 2) Reachable.init initBuf (by decide)

/-- Claim C9 (amended claim of the scheduler admission guard, modelled from
the spec since proc.c is not in the repository): enqueue is idempotent — a
second enqueue of an already-queued pid is a no-op; enqueue sets the
`already_enqueued` guard; enqueueing a fresh pid twice adds exactly one
entry to its level queue; and dequeue clears the dequeued pid's guard. -/
theorem C9_enqueue_idempotent (s : SchedState) (lvl pid : Nat) :
    enqueue lvl pid (enqueue lvl pid s) = enqueue lvl pid s ∧
    pid ∈ (enqueue lvl pid s).enqueued ∧
    (pid ∉ s.enqueued →
      (level_queue (enqueue lvl pid (enqueue lvl pid s)) lvl).count pid =
        (level_queue s lvl).count pid + 1) ∧
    (∀ p rest, level_queue s lvl = p :: rest →
      (dequeue lvl s).2.enqueued = s.enqueued.erase p) := by
  have hdeq : ∀ p rest, level_queue s lvl = p :: rest →
      (dequeue lvl s).2.enqueued = s.enqueued.erase p := by
    intro p rest hq
    unfold dequeue
    rw [hq]
  by_cases hm : pid ∈ s.enqueued
  · have he := enqueue_of_mem lvl pid s hm
    refine ⟨?_, ?_, ?_, hdeq⟩
    · rw [he, he]
    · rw [he]; exact hm
    · intro hn; exact absurd hm hn
  · have he := enqueue_of_not_mem lvl pid s hm
    have hmem2 : pid ∈ (enqueue lvl pid s).enqueued := by
      rw [he]; exact List.mem_cons_self pid s.enqueued
    have hidem := enqueue_of_mem lvl pid (enqueue lvl pid s) hmem2
    refine ⟨hidem, hmem2, ?_, hdeq⟩
    intro _
    rw [hidem, he, level_queue_enq_update, level_queue_setLevelQueue,
      List.count_append]
    simp

/-- Witness for C9: double enqueue of pid 5 into the empty scheduler. -/
theorem C9_witness :
    enqueue 0 5 (enqueue 0 5 sched0) = enqueue 0 5 sched0 ∧
    (level_queue (enqueue 0 5 (enqueue 0 5 sched0)) 0).count 5 =
      (level_queue sched0 0).count 5 + 1 :=
  ⟨(C9_enqueue_idempotent sched0 0 5).1,
   (C9_enqueue_idempotent sched0 0 5).2.2.1 (by decide)⟩

theorem isDirty_iderw_of_dirty (c : Buf) (h : isDirty c = true) :
    isDirty (iderw c).1 = true := by
  rw [iderw_dirty c h]
  exact h

/-- Claim C6: bwrite (markDirty) and brelse (release) fail with
LockViolation exactly when the caller does not hold the buffer's content
lock; when the lock is held, bwrite sets the Dirty flag and then invokes
the device-write collaborator synchronously (exactly one `iderw` event). -/
theorem C6_lock (s : Cache) (i : Nat) (b : Buf) (hg : s.bufs[i]? = some b) :
    ((bwrite i s).1 = Except.error Err.lockViolation ↔ b.locked = false) ∧
    (brelse i s = Except.error Err.lockViolation ↔ b.locked = false) ∧
    (b.locked = true →
      (bwrite i s).2 = [Ev.iderw b.dev b.blockno] ∧
      ∃ s' c, (bwrite i s).1 = Except.ok s' ∧ s'.bufs[i]? = some c ∧
        isDirty c = true) := by
  have hb1 : isDirty ({ b with flags := b.flags ||| B_DIRTY } : Buf) = true :=
    isDirty_or_dirty b
  refine ⟨?_, ?_, ?_⟩
  · unfold bwrite
    rw [hg]
    by_cases hl : b.locked = false
    · simp [hl]
    · simp [hl]
  · unfold brelse
    rw [hg]
    by_cases hl : b.locked = false
    · simp [hl]
    · simp only [hl, if_false]
      by_cases hz : b.refcnt - 1 = 0
      · simp [hz, hl]
      · simp [hz, hl]
  · intro hlock
    have hl : ¬(b.locked = false) := by rw [hlock]; simp
    unfold bwrite
    rw [hg]
    simp only [hl, if_false]
    constructor
    · rfl
    · exact ⟨_, _, rfl, lookup_set_self _ hg, isDirty_iderw_of_dirty _ hb1⟩

/-- Witness for C6: bwrite on the held buffer of `cacheHeld` writes through;
brelse on its unheld buffer fails with LockViolation. -/
theorem C6_witness :
    (bwrite 1 cacheHeld).2 = [Ev.iderw 2 2] ∧
    brelse 0 cacheHeld = Except.error Err.lockViolation := by
  have h1 := C6_lock cacheHeld 1 ⟨2, 2, 2, 1, true⟩ (by decide)
  have h2 := C6_lock cacheHeld 0 ⟨1, 1, 4, 0, false⟩ (by decide)
  exact ⟨(h1.2.2 (by decide)).1, h2.2.1.mpr (by decide)⟩

end Xv6Bio

namespace Xv6Bio

/-- Counterexample to claim C1 as stated: in `cacheA` the fetch of block
(0,0) is a hit (the pool holds a matching entry, found by the hit scan),
yet the operation both invokes the flush collaborator (dirty pressure is
checked at the top of bget, before the hit scan, not only on the miss path)
and performs device I/O (the matching buffer is still invalid, so bread
calls iderw). -/
theorem C1_counterexample :
    scanHit 0 0 (pressurePhase 4 id cacheA).1.bufs =
      some (1, ⟨0, 0, 0, 0, false⟩) ∧
    Ev.sync ∈ (bread 4 id 0 0 cacheA).2 ∧
    Ev.iderw 0 0 ∈ (bread 4 id 0 0 cacheA).2 := by
  refine ⟨by decide, by decide, by decide⟩

/-- Claim C1 amended: on a hit the fetch increments the buffer's refcount,
acquires its content lock and returns it; it performs no device I/O
provided the found buffer's Valid flag is set; and the dirty-pressure
check (with its synchronous flush) runs at the start of every fetch —
before the hit scan — not only on the miss path: the flush event appears
exactly when the pressure condition held at entry. -/
theorem C1_hit (NBUF : Nat) (f : Cache → Cache) (dev blockno i : Nat)
    (b : Buf) (s : Cache)
    (hhit : scanHit dev blockno (pressurePhase NBUF f s).1.bufs = some (i, b))
    (hvalid : isValid b = true) :
    bread NBUF f dev blockno s =
      (Except.ok ⟨i, hitBuf b,
        { (pressurePhase NBUF f s).1 with
          bufs := (pressurePhase NBUF f s).1.bufs.set i (hitBuf b) }⟩,
       (pressurePhase NBUF f s).2) ∧
    (∀ d k, Ev.iderw d k ∉ (bread NBUF f dev blockno s).2) ∧
    (Ev.sync ∈ (bread NBUF f dev blockno s).2 ↔
      s.isfull = false ∧ (buffer_isfull NBUF s).1 = 1) := by
  have hscan : bgetScan dev blockno (pressurePhase NBUF f s).1 =
      Except.ok ⟨i, hitBuf b,
        { (pressurePhase NBUF f s).1 with
          bufs := (pressurePhase NBUF f s).1.bufs.set i (hitBuf b) }⟩ := by
    unfold bgetScan
    rw [hhit]
  have hvb : isValid (hitBuf b) = true := hvalid
  have hbr : bread NBUF f dev blockno s =
      (Except.ok ⟨i, hitBuf b,
        { (pressurePhase NBUF f s).1 with
          bufs := (pressurePhase NBUF f s).1.bufs.set i (hitBuf b) }⟩,
       (pressurePhase NBUF f s).2) := by
    unfold bread bget
    rw [hscan]
    simp only [hvb, if_true]
  refine ⟨hbr, ?_, ?_⟩
  · intro d k
    rw [hbr]
    rcases pressurePhase_evs NBUF f s with hp | hp
    · rw [hp]; simp
    · rw [hp]; simp
  · rw [hbr]
    exact pressurePhase_sync_mem NBUF f s

/-- Witness for the amended C1: a valid hit in `cacheA` does no device I/O
even though the pressure flush fires. -/
theorem C1_witness :
    Ev.iderw 2 2 ∉ (bread 4 id 2 2 cacheA).2 ∧
    Ev.sync ∈ (bread 4 id 2 2 cacheA).2 := by
  have h := C1_hit 4 id 2 2 2 ⟨2, 2, 2, 1, false⟩ cacheA (by decide) (by decide)
  exact ⟨h.2.1 2 2, h.2.2.mpr (by decide)⟩

/-- Claim C2: the allocation scan of a miss only reassigns a buffer with
refcount 0 and Dirty unset — a dirty buffer is never the victim even with
refcount 0 — taking the first such buffer from the LRU end; on reassignment
the identity is replaced, the flags are cleared, the refcount set to 1, the
lock acquired, and the content is loaded from the device (Valid clear until
the load, set after). -/
theorem C2_eviction (NBUF : Nat) (f : Cache → Cache) (dev blockno j : Nat)
    (b : Buf) (s : Cache)
    (hmiss : scanHit dev blockno (pressurePhase NBUF f s).1.bufs = none)
    (hvict : scanVictim (pressurePhase NBUF f s).1.bufs = some (j, b)) :
    b.refcnt = 0 ∧ isDirty b = false ∧
    (∀ k, j < k → ∀ c, (pressurePhase NBUF f s).1.bufs[k]? = some c →
        ¬(c.refcnt = 0 ∧ isDirty c = false)) ∧
    bread NBUF f dev blockno s =
      (Except.ok ⟨j, ⟨dev, blockno, B_VALID, 1, true⟩,
        { (pressurePhase NBUF f s).1 with
          bufs := (pressurePhase NBUF f s).1.bufs.set j
            ⟨dev, blockno, B_VALID, 1, true⟩ }⟩,
       (pressurePhase NBUF f s).2 ++ [Ev.iderw dev blockno]) := by
  obtain ⟨hlook, hev, hmax⟩ := scanVictim_some hvict
  obtain ⟨hrc, hd⟩ := (evictable_eq_true b).mp hev
  refine ⟨hrc, hd, ?_, ?_⟩
  · intro k hk c hkc hcontra
    rcases (evictable_eq_false c).mp (hmax k hk c hkc) with h | h
    · exact h hcontra.1
    · rw [hcontra.2] at h; simp at h
  · have hscan : bgetScan dev blockno (pressurePhase NBUF f s).1 =
        Except.ok ⟨j, freshBuf dev blockno,
          { (pressurePhase NBUF f s).1 with
            bufs := (pressurePhase NBUF f s).1.bufs.set j
              (freshBuf dev blockno) }⟩ := by
      unfold bgetScan
      rw [hmiss, hvict]
    unfold bread bget
    rw [hscan]
    have h1 : isValid (freshBuf dev blockno) = false := by
      simp [isValid, freshBuf, B_VALID]
    have h2 : (iderw (freshBuf dev blockno)).1 =
        ⟨dev, blockno, B_VALID, 1, true⟩ := by
      simp [iderw, freshBuf, isDirty, B_DIRTY, B_VALID]
    have h3 : (iderw (freshBuf dev blockno)).2 = [Ev.iderw dev blockno] := rfl
    simp only [h1, Bool.false_eq_true, if_false, h2, h3, List.set_set]

/-- Witness for C2: a miss on block (9,9) in `cacheA` recycles the clean
refcount-0 buffer, never the dirty one. -/
theorem C2_witness :
    bread 4 id 9 9 cacheA =
      (Except.ok ⟨1, ⟨9, 9, 2, 1, true⟩, cacheA9⟩, [Ev.sync, Ev.iderw 9 9]) :=
  (C2_eviction 4 id 9 9 1 ⟨0, 0, 0, 0, false⟩ cacheA
    (by decide) (by decide)).2.2.2

/-- Counterexample to claim C8 as stated: identity uniqueness fails in a
reachable state — immediately after binit all 30 buffers (C globals are
zero-initialised) share the identity (0,0). -/
theorem C8_counterexample :
    ¬(∀ s : Cache, Reachable 30 s → identUnique s.bufs) := by
  intro hcl
  have h := hcl (binit 30) Reachable.init
  revert h
  decide

/-- Claim C8 amended: every operation preserves identity uniqueness — the
hit scan returns an existing match before the allocation path can assign
the same identity to a second buffer — but uniqueness holds only in states
reachable from a state that satisfies it, not after binit, whose zeroed
pool gives every buffer the identity (0,0). -/
theorem C8_identUnique_preserved (NBUF : Nat) (s s' : Cache)
    (hu : identUnique s.bufs) (hstep : Step NBUF s s') :
    identUnique s'.bufs :=
  identUnique_step hu hstep

/-- Witness for the amended C8: a bwrite step out of `cacheHeld` keeps its
identities unique. -/
theorem C8_witness : identUnique cacheHeldW.bufs :=
  C8_identUnique_preserved 2 cacheHeld cacheHeldW (by decide)
    (Step.write 1 cacheHeldW [Ev.iderw 2 2] cacheHeld (by rfl))

end Xv6Bio

namespace Xv6Bio

theorem isDirty_clearDirty (b : Buf) : isDirty (clearDirty b) = false := by
  unfold isDirty clearDirty B_DIRTY
  have h34 : (3 : Nat) &&& 4 = 0 := by decide
  simp [Nat.and_assoc, h34]

theorem bget_ok_of_evictable (NBUF : Nat) (dev blockno : Nat) (sC : Cache)
    (hex : ∃ x ∈ sC.bufs, evictable x = true) :
    ∃ r, (bget NBUF syncModel dev blockno sC).1 = Except.ok r := by
  unfold bget
  cases hh : scanHit dev blockno (pressurePhase NBUF syncModel sC).1.bufs with
  | some ib =>
    refine ⟨⟨ib.1, hitBuf ib.2,
      { (pressurePhase NBUF syncModel sC).1 with
        bufs := (pressurePhase NBUF syncModel sC).1.bufs.set ib.1
          (hitBuf ib.2) }⟩, ?_⟩
    unfold bgetScan
    rw [hh]
  | none =>
    cases hv : scanVictim (pressurePhase NBUF syncModel sC).1.bufs with
    | some jb =>
      refine ⟨⟨jb.1, freshBuf dev blockno,
        { (pressurePhase NBUF syncModel sC).1 with
          bufs := (pressurePhase NBUF syncModel sC).1.bufs.set jb.1
            (freshBuf dev blockno) }⟩, ?_⟩
      unfold bgetScan
      rw [hh, hv]
    | none =>
      exfalso
      obtain ⟨x, hx, hev⟩ := hex
      have hall := scanVictim_none.mp hv
      rcases pressurePhase_syncModel_bufs NBUF sC with hb | hb
      · have hfx := hall x (by rw [hb]; exact hx)
        rw [hev] at hfx
        simp at hfx
      · have hmem : clearDirty x ∈ (pressurePhase NBUF syncModel sC).1.bufs := by
          rw [hb]
          exact List.mem_map_of_mem _ hx
        have hevc : evictable (clearDirty x) = true := by
          apply (evictable_eq_true _).mpr
          obtain ⟨hx0, -⟩ := (evictable_eq_true x).mp hev
          exact ⟨hx0, isDirty_clearDirty x⟩
        have hfx := hall _ hmem
        rw [hevc] at hfx
        simp at hfx

/-- Claim C3: bget panics with BufferExhausted exactly when, in the pool
state its scans see (after the pressure phase), the block is not cached and
every buffer is held (refcount > 0, given non-negative refcounts) or dirty;
and after a release drops a clean buffer's refcount to 0, the next fetch of
an uncached block succeeds instead of failing. -/
theorem C3_exhaustion (NBUF : Nat) (f : Cache → Cache) :
    (∀ dev blockno s,
      (∀ b ∈ (pressurePhase NBUF f s).1.bufs, 0 ≤ b.refcnt) →
      ((bget NBUF f dev blockno s).1 = Except.error Err.bufferExhausted ↔
        (∀ b ∈ (pressurePhase NBUF f s).1.bufs,
          ¬(b.dev = dev ∧ b.blockno = blockno)) ∧
        (∀ b ∈ (pressurePhase NBUF f s).1.bufs,
          0 < b.refcnt ∨ isDirty b = true))) ∧
    (∀ s i b s' dev blockno, s.bufs[i]? = some b →
      isDirty b = false → b.refcnt = 1 → b.locked = true →
      brelse i s = Except.ok s' →
      (∀ c ∈ s'.bufs, ¬(c.dev = dev ∧ c.blockno = blockno)) →
      ∃ r, (bget NBUF syncModel dev blockno s').1 = Except.ok r) := by
  constructor
  · intro dev blockno s hnn
    unfold bget
    constructor
    · intro herr
      unfold bgetScan at herr
      cases hh : scanHit dev blockno (pressurePhase NBUF f s).1.bufs with
      | some ib => rw [hh] at herr; simp at herr
      | none =>
        rw [hh] at herr
        cases hv : scanVictim (pressurePhase NBUF f s).1.bufs with
        | some jb => rw [hv] at herr; simp at herr
        | none =>
          refine ⟨scanHit_none.mp hh, ?_⟩
          intro b hb
          rcases (evictable_eq_false b).mp (scanVictim_none.mp hv b hb)
            with h | h
          · left
            have := hnn b hb
            omega
          · right; exact h
    · rintro ⟨h1, h2⟩
      have hh : scanHit dev blockno (pressurePhase NBUF f s).1.bufs = none :=
        scanHit_none.mpr h1
      have hv : scanVictim (pressurePhase NBUF f s).1.bufs = none := by
        apply scanVictim_none.mpr
        intro b hb
        apply (evictable_eq_false b).mpr
        rcases h2 b hb with h | h
        · left; omega
        · right; exact h
      unfold bgetScan
      rw [hh, hv]
  · intro s i b s' dev blockno hg hdirty hrc hlock hrel hnc
    unfold brelse at hrel
    split at hrel
    next => simp at hrel
    next b2 hg2 =>
      rw [hg] at hg2
      injection hg2 with hb2
      subst hb2
      split at hrel
      next hl => rw [hlock] at hl; simp at hl
      next hl =>
        simp only [] at hrel
        split at hrel
        next hz =>
          simp only [Except.ok.injEq] at hrel
          subst hrel
          apply bget_ok_of_evictable
          refine ⟨_, List.mem_cons_self _ _, ?_⟩
          apply (evictable_eq_true _).mpr
          constructor
          · show b.refcnt - 1 = 0
            rw [hrc]
            norm_num
          · exact hdirty
        next hz =>
          exfalso
          apply hz
          show b.refcnt - 1 = 0
          rw [hrc]
          norm_num

/-- Witness for C3: the two-buffer pool `cacheExh` (one dirty, one held) is
exhausted; after releasing the held buffer (`cacheRel`), the next fetch of
the uncached block (7,7) succeeds. -/
theorem C3_witness :
    (bget 2 id 7 7 cacheExh).1 = Except.error Err.bufferExhausted ∧
    (bget 2 syncModel 7 7 cacheRel).1.isOk = true := by
  constructor
  · exact ((C3_exhaustion 2 id).1 7 7 cacheExh (by decide)).mpr (by decide)
  · obtain ⟨r, hr⟩ := (C3_exhaustion 2 id).2 cacheHeld 1 ⟨2, 2, 2, 1, true⟩
      cacheRel 7 7 (by decide) (by decide) (by decide) (by decide) (by rfl)
      (by decide)
    rw [hr]
    rfl

/-- Claim C4: buffer_isfull returns 1 exactly when the number of dirty
buffers is at least NBUF − 3 and 0 otherwise; when it returns 1 with the
guard clear, the next fetch sets the guard, invokes the flush collaborator
synchronously exactly once — before any allocation, so the sync event heads
the event list — and clears the guard afterwards; and a fetch issued while
the guard is set (re-entrantly from within the flush) triggers no nested
flush. -/
theorem C4_capacity (NBUF : Nat) (f : Cache → Cache) (s t : Cache) :
    ((buffer_isfull NBUF s).1 = 1 ↔ NBUF - 3 ≤ dirtyCount s) ∧
    ((buffer_isfull NBUF s).1 = 0 ↔ dirtyCount s < NBUF - 3) ∧
    (s.isfull = false → (buffer_isfull NBUF s).1 = 1 →
      pressurePhase NBUF f s = (guardClear (f (guardSet s)), [Ev.sync]) ∧
      ∀ dev blockno,
        (bread NBUF f dev blockno s).2.count Ev.sync = 1 ∧
        (bread NBUF f dev blockno s).2.head? = some Ev.sync) ∧
    (∀ dev blockno,
      (bread NBUF f dev blockno (guardSet t)).2.count Ev.sync = 0) := by
  refine ⟨buffer_isfull_one_iff NBUF s, buffer_isfull_zero_iff NBUF s, ?_, ?_⟩
  · intro h1 h2
    have hp := pressurePhase_pos NBUF f s h1 h2
    refine ⟨hp, ?_⟩
    intro dev blockno
    have hevs : (pressurePhase NBUF f s).2 = [Ev.sync] := by rw [hp]
    rcases bread_evs NBUF f dev blockno s with hb | ⟨d, k, hb⟩
    · rw [hb, hevs]
      exact ⟨by simp, rfl⟩
    · rw [hb, hevs]
      exact ⟨by simp, rfl⟩
  · intro dev blockno
    have hp : pressurePhase NBUF f (guardSet t) = (guardSet t, []) := by
      apply pressurePhase_neg
      intro hco
      exact absurd hco.1 (by simp [guardSet])
    have hevs : (pressurePhase NBUF f (guardSet t)).2 = [] := by rw [hp]
    rcases bread_evs NBUF f dev blockno (guardSet t) with hb | ⟨d, k, hb⟩
    · rw [hb, hevs]
      simp
    · rw [hb, hevs]
      simp

/-- Witness for C4: `cacheA` is past the dirty threshold, so a fetch flushes
exactly once, first; a guarded fetch does not flush. -/
theorem C4_witness :
    (buffer_isfull 4 cacheA).1 = 1 ∧
    (bread 4 id 9 9 cacheA).2.count Ev.sync = 1 ∧
    (bread 4 id 9 9 cacheA).2.head? = some Ev.sync ∧
    (bread 4 id 9 9 (guardSet cacheA)).2.count Ev.sync = 0 := by
  have h := C4_capacity 4 id cacheA cacheA
  have hfull : (buffer_isfull 4 cacheA).1 = 1 := h.1.mpr (by decide)
  have h3 := (h.2.2.1 rfl hfull).2 9 9
  exact ⟨hfull, h3.1, h3.2, h.2.2.2 9 9⟩

end Xv6Bio
